import Mathlib

/-!
Shallow embedding of the commoncartridge IMSCC core (`imscc.go`) together
with proofs of the specification claims.  Pure data (the parsed manifest)
is modelled directly; the zip archive is a list of named byte entries; the
external XML decoders (`encoding/xml.Unmarshal`) are an explicit oracle
structure, since XML decoding is an external collaborator in this design.
-/

namespace CC

/-- Bytes of an archive entry (`[]byte`). -/
abbrev Bytes := List Nat

/-- Models `types.File`: a `<file>` child node of a resource, with its `href` attribute. -/
structure File where
  href : String
deriving DecidableEq, Repr

/-- Models `types.Resource`: a catalog entry of the manifest.
`rtype` models the Go field `Type` (a versioned type-tag string). -/
structure Resource where
  identifier : String
  rtype : String
  href : String
  file : List File
deriving DecidableEq, Repr

/-- Models `types.Item`: a node of the organizational tree.
`item` models the Go field `Item`, the ordered list of child items. -/
inductive Item : Type where
  | mk (identifier : String) (identifierref : String) (item : List Item) : Item

def Item.identifier : Item → String
  | .mk i _ _ => i

def Item.identifierref : Item → String
  | .mk _ r _ => r

def Item.item : Item → List Item
  | .mk _ _ c => c

/-- The Go zero value `types.Item{}`. -/
def zeroItem : Item := .mk "" "" []

/-- Models `types.Manifest` down to the fields the core reads:
`rootItem` models `manifest.Organizations.Organization.Item` (the single
root organization item) and `resources` models `manifest.Resources.Resource`. -/
structure Manifest where
  rootItem : Item
  resources : List Resource

/-- The Go zero value `types.Manifest{}` restricted to the modelled fields. -/
def zeroManifest : Manifest := ⟨zeroItem, []⟩

/-- Models the zip archive: `zip.Reader` as a list of named entries. -/
structure Archive where
  entries : List (String × Bytes)
deriving DecidableEq, Repr

/-- Models `zip.Reader.Open`: opening by exact entry name.  The empty
string is not a valid `fs` path, so `Open("")` always fails, which is how
`parseManifest` fails when no manifest entry was located. -/
def Archive.open (a : Archive) (p : String) : Option Bytes :=
  if p = "" then none
  else (a.entries.find? (fun e => e.1 = p)).map (fun e => e.2)

/-- Models `types.Topic` down to what the core inspects (`XMLName.Local`). -/
structure Topic where
  xmlNameLocal : String
deriving DecidableEq, Repr

/-- Models `types.WebLink` down to what the core inspects. -/
structure WebLink where
  xmlNameLocal : String
  title : String
  urlHref : String
deriving DecidableEq, Repr

/-- Models `types.Assignment` down to what the core inspects (`XMLName.Local`). -/
structure Assignment where
  xmlNameLocal : String
deriving DecidableEq, Repr

/-- Models `types.Questestinterop` down to what the core inspects (`XMLName.Local`). -/
structure Questestinterop where
  xmlNameLocal : String
deriving DecidableEq, Repr

/-- Models `types.CartridgeBasicltiLink` down to what the core inspects. -/
structure CartridgeBasicltiLink where
  xmlNameLocal : String
deriving DecidableEq, Repr

/-- The external XML decoding capability (`encoding/xml.Unmarshal` per
target struct).  Each decoder returns the value written into the target
struct together with a Bool recording whether `Unmarshal` returned a nil
error (`true` = parsed, `false` = parse failure, value is what was left in
the struct, the zero value when nothing parsed). -/
structure Decoders where
  topic : Bytes → Topic × Bool
  weblink : Bytes → WebLink × Bool
  assignment : Bytes → Assignment × Bool
  qti : Bytes → Questestinterop × Bool
  lti : Bytes → CartridgeBasicltiLink × Bool
  manifest : Bytes → Manifest × Bool

/-- The distinct error values the core produces. -/
inductive Err : Type where
  /-- Error of `zip.Reader.Open` for a path (archive entry absent or path invalid). -/
  | openErr (path : String)
  /-- Error of `Find`: `could not find resource with id`. -/
  | resourceNotFound (id : String)
  /-- Error of `Find`: `no matching type found` (the `default` switch branch). -/
  | noMatchingType (t : String)
  /-- Error of `FindFile`: no resource matched the requested identifier. -/
  | fileForIdNotFound (id : String)
deriving DecidableEq, Repr

/-- The dynamic result (`interface{}`) of `Find`. -/
inductive Found : Type where
  | raw (r : Resource)
  | topic (t : Topic)
  | weblink (w : WebLink)
  | assignment (a : Assignment)
  | qti (q : Questestinterop)
  | lti (l : CartridgeBasicltiLink)
deriving DecidableEq, Repr

/-- Models Go `strings.Contains s sub`: `sub` occurs as a substring of `s`. -/
def strContains (s sub : String) : Bool :=
  s.data.tails.any (fun t => sub.data.isPrefixOf t)

/-- Returns `true` when the list starts with a decimal digit; helper for the
`\d` of the version-suffix regular expressions. -/
def headIsDigit : List Char → Bool
  | [] => false
  | c :: _ => c.isDigit

/-- Models `regexp.Find` for the patterns `family\d` used by
`findResourcesByType`: the (unanchored) pattern matches iff some position
of `t` starts with `family` followed by a decimal digit. -/
def matchesFamilyVersion (family t : String) : Bool :=
  t.data.tails.any (fun tl =>
    family.data.isPrefixOf tl && headIsDigit (tl.drop family.data.length))

/-- Models the path-selection loop of `Find`:
`for _, f := range r.File { path = f.Href }` leaves `path` at the href of
the **last** file entry (or `""` when the list is empty). -/
def lastFileHref : List File → String
  | [] => ""
  | [f] => f.href
  | _ :: f :: rest => lastFileHref (f :: rest)

/-- The backing path `Find` computes for a matched resource: the direct
`href` when non-empty, otherwise the result of the file loop. -/
def resourcePath (r : Resource) : String :=
  if r.href ≠ "" then r.href else lastFileHref r.file

def topicTypes : List String :=
  ["imsdt_xmlv1p0", "imsdt_xmlv1p1", "imsdt_xmlv1p2", "imsdt_xmlv1p3"]

def weblinkTypes : List String :=
  ["imswl_xmlv1p0", "imswl_xmlv1p1", "imswl_xmlv1p2", "imswl_xmlv1p3"]

def assignmentTypes : List String :=
  ["assignment_xmlv1p0", "assignment_xmlv1p1", "assignment_xmlv1p2", "assignment_xmlv1p3"]

def qtiTypes : List String :=
  ["imsqti_xmlv1p2/imscc_xmlv1p1/assessment", "imsqti_xmlv1p2/imscc_xmlv1p2/assessment",
   "imsqti_xmlv1p2/imscc_xmlv1p3/assessment"]

def ltiTypes : List String :=
  ["imsbasiclti_xmlv1p0", "imsbasiclti_xmlv1p1", "imsbasiclti_xmlv1p2"]

def associatedContentTypes : List String :=
  ["associatedcontent/imscc_xmlv1p0/learning-application-resource",
   "associatedcontent/imscc_xmlv1p1/learning-application-resource",
   "associatedcontent/imscc_xmlv1p2/learning-application-resource",
   "associatedcontent/imscc_xmlv1p3/learning-application-resource"]

/-- The `switch r.Type` dispatch of `Find`, applied once the backing file
was opened and read into `bs`.  Every decode branch returns a nil error
even when `Unmarshal` failed (`if err != nil { return t, nil }`). -/
def findSwitch (d : Decoders) (r : Resource) (bs : Bytes) : Found × Option Err :=
  if r.rtype ∈ topicTypes then (.topic (d.topic bs).1, none)
  else if r.rtype = "webcontent" then (.raw r, none)
  else if r.rtype ∈ weblinkTypes then (.weblink (d.weblink bs).1, none)
  else if r.rtype ∈ assignmentTypes then (.assignment (d.assignment bs).1, none)
  else if r.rtype ∈ qtiTypes then (.qti (d.qti bs).1, none)
  else if r.rtype ∈ ltiTypes then (.lti (d.lti bs).1, none)
  else if r.rtype ∈ associatedContentTypes then (.raw r, none)
  else (.raw r, some (.noMatchingType r.rtype))

/-- The body of `Find` for one matched resource (`r.Identifier == id`). -/
def findOne (d : Decoders) (a : Archive) (r : Resource) : Found × Option Err :=
  if resourcePath r = "" then (.raw r, none)
  else
    match a.open (resourcePath r) with
    | none => (.raw r, some (.openErr (resourcePath r)))
    | some bs => findSwitch d r bs

/-- The resource-scanning loop of `Find`. -/
def findAux (d : Decoders) (a : Archive) (id : String) : List Resource → Found × Option Err
  | [] => (.raw ⟨"", "", "", []⟩, some (.resourceNotFound id))
  | r :: rest =>
    if r.identifier = id then findOne d a r
    else findAux d a id rest

/-- Models `IMSCC.Find`. -/
def Find (d : Decoders) (a : Archive) (m : Manifest) (id : String) : Found × Option Err :=
  findAux d a id m.resources

/-- Outcome of `FindFile`: a stream (path plus bytes), an error, or a
runtime panic (which Go raises on `r.File[0]` when the file list is empty). -/
inductive FileResult : Type where
  | ok (path : String) (content : Bytes)
  | err (e : Err)
  | panicked
deriving DecidableEq, Repr

/-- The resource-scanning loop of `FindFile`.  A matched resource indexes
`r.File[0]` unconditionally: an empty file list is an index-out-of-range
panic, not an error return. -/
def findFileAux (a : Archive) (id : String) : List Resource → FileResult
  | [] => .err (.fileForIdNotFound id)
  | r :: rest =>
    if r.identifier = id then
      match r.file with
      | [] => .panicked
      | f :: _ =>
        match a.open f.href with
        | none => .err (.openErr f.href)
        | some bs => .ok f.href bs
    else findFileAux a id rest

/-- Models `IMSCC.FindFile`. -/
def FindFile (a : Archive) (m : Manifest) (id : String) : FileResult :=
  findFileAux a id m.resources

/-- Models the helper `findItem(items, id)`.  The Go loop keeps a running
`item` variable: a direct `Identifierref` match returns immediately, while
a recursive result (computed only when the node has children, and started
from the zero value) overwrites the running variable without any success
check, so later subtrees can overwrite an earlier find. -/
def findItemGo (id : String) : List Item → Item → Item
  | [], cur => cur
  | .mk ident ref children :: rest, cur =>
    if ref = id then .mk ident ref children
    else if 0 < children.length then
      findItemGo id rest (findItemGo id children zeroItem)
    else findItemGo id rest cur

/-- Models the loop of `IMSCC.FindItem`: for each immediate child `i` of
the root organization item, search `i.Item` (the child's own children) with
`findItem`; return the result when its `Identifierref` equals the id,
otherwise carry it into the next iteration and return the last value at
the end.  The immediate children themselves are never compared. -/
def findItemTop (id : String) : List Item → Item → Item
  | [], cur => cur
  | i :: rest, _cur =>
    if (findItemGo id i.item zeroItem).identifierref = id then findItemGo id i.item zeroItem
    else findItemTop id rest (findItemGo id i.item zeroItem)

/-- Models `IMSCC.FindItem`. -/
def FindItem (m : Manifest) (id : String) : Item :=
  findItemTop id m.rootItem.item zeroItem

/-- Models `FullItem`: an item together with the resources referring to it
and the already-correlated children. -/
inductive FullItem : Type where
  | mk (resources : List Resource) (item : Item) (children : List FullItem) : FullItem

def FullItem.resources : FullItem → List Resource
  | .mk r _ _ => r

def FullItem.item : FullItem → Item
  | .mk _ i _ => i

def FullItem.children : FullItem → List FullItem
  | .mk _ _ c => c

mutual

/-- Models `IMSCC.traverseItems`: attach every resource whose identifier
contains the item's `Identifierref` (when that is non-empty), then recurse
into the children in order.  The Go function never returns a non-nil
error, so it is a pure function here. -/
def traverseItems (rs : List Resource) : Item → FullItem
  | .mk i ref cs =>
    .mk (if ref ≠ "" then rs.filter (fun r => strContains r.identifier ref) else [])
      (.mk i ref cs)
      (traverseItemsList rs cs)

/-- The recursion of `traverseItems` over the child list (the Go
`for _, i := range current.Item` loop). -/
def traverseItemsList (rs : List Resource) : List Item → List FullItem
  | [] => []
  | c :: cs => traverseItems rs c :: traverseItemsList rs cs

end

/-- Models `IMSCC.Items`: traverse each immediate child of the (single)
root organization item. -/
def Items (m : Manifest) : List FullItem :=
  traverseItemsList m.resources m.rootItem.item

mutual

/-- All nodes of a `FullItem` tree (the node itself and all descendants). -/
def FullItem.allNodes : FullItem → List FullItem
  | .mk r i cs => .mk r i cs :: FullItem.allNodesList cs

/-- All nodes of each tree in a list of `FullItem` trees, concatenated. -/
def FullItem.allNodesList : List FullItem → List FullItem
  | [] => []
  | c :: cs => FullItem.allNodes c ++ FullItem.allNodesList cs

end

mutual

/-- All nodes of an `Item` tree (the node itself and all descendants). -/
def Item.allNodes : Item → List Item
  | .mk i ref cs => .mk i ref cs :: Item.allNodesList cs

/-- All nodes of each tree in a list of `Item` trees, concatenated. -/
def Item.allNodesList : List Item → List Item
  | [] => []
  | c :: cs => Item.allNodes c ++ Item.allNodesList cs

end

/-- Models `FullResource`: a found (decoded or raw) resource paired with
the item that refers to it (`types.Item{}` when none). -/
structure FullResource where
  resource : Found
  item : Item

/-- The loop of `IMSCC.Resources`: for each catalog resource, `Find` it
(aborting with the error and the entries so far when `Find` errors) and
pair it with `FindItem` of its identifier. -/
def resourcesLoop (d : Decoders) (a : Archive) (m : Manifest) :
    List Resource → List FullResource → List FullResource × Option Err
  | [], acc => (acc, none)
  | r :: rest, acc =>
    match Find d a m r.identifier with
    | (_, some e) => (acc, some e)
    | (found, none) =>
      resourcesLoop d a m rest (acc ++ [⟨found, FindItem m r.identifier⟩])

/-- Models `IMSCC.Resources`. -/
def Resources (d : Decoders) (a : Archive) (m : Manifest) : List FullResource × Option Err :=
  resourcesLoop d a m m.resources []

/-- Models `IMSCC.findResourcesByType` for the five fixed patterns
`family\d`: all file hrefs of every resource whose type tag matches the
pattern somewhere. -/
def findResourcesByType (m : Manifest) (family : String) : List String :=
  m.resources.flatMap (fun r =>
    if matchesFamilyVersion family r.rtype then r.file.map (fun f => f.href) else [])

/-- The loop of `IMSCC.Topics`: open each path (returning the entries so
far plus the error on failure), decode, and append **unconditionally** —
no root-element check is made. -/
def topicsLoop (d : Decoders) (a : Archive) :
    List String → List Topic → List Topic × Option Err
  | [], acc => (acc, none)
  | p :: rest, acc =>
    match a.open p with
    | none => (acc, some (.openErr p))
    | some bs => topicsLoop d a rest (acc ++ [(d.topic bs).1])

/-- Models `IMSCC.Topics`. -/
def Topics (d : Decoders) (a : Archive) (m : Manifest) : List Topic × Option Err :=
  topicsLoop d a (findResourcesByType m "imsdt_xmlv1p") []

/-- The loop of `IMSCC.Weblinks`: decode and append unconditionally. -/
def weblinksLoop (d : Decoders) (a : Archive) :
    List String → List WebLink → List WebLink × Option Err
  | [], acc => (acc, none)
  | p :: rest, acc =>
    match a.open p with
    | none => (acc, some (.openErr p))
    | some bs => weblinksLoop d a rest (acc ++ [(d.weblink bs).1])

/-- Models `IMSCC.Weblinks`. -/
def Weblinks (d : Decoders) (a : Archive) (m : Manifest) : List WebLink × Option Err :=
  weblinksLoop d a (findResourcesByType m "imswl_xmlv1p") []

/-- The loop of `IMSCC.Assignments`: decode and append only when the
decoded root element is `assignment`. -/
def assignmentsLoop (d : Decoders) (a : Archive) :
    List String → List Assignment → List Assignment × Option Err
  | [], acc => (acc, none)
  | p :: rest, acc =>
    match a.open p with
    | none => (acc, some (.openErr p))
    | some bs =>
      let v := (d.assignment bs).1
      assignmentsLoop d a rest (if v.xmlNameLocal = "assignment" then acc ++ [v] else acc)

/-- Models `IMSCC.Assignments`. -/
def Assignments (d : Decoders) (a : Archive) (m : Manifest) : List Assignment × Option Err :=
  assignmentsLoop d a (findResourcesByType m "assignment_xmlv1p") []

/-- The loop of `IMSCC.QTIs`: decode and append only when the decoded root
element is `questestinterop`. -/
def qtisLoop (d : Decoders) (a : Archive) :
    List String → List Questestinterop → List Questestinterop × Option Err
  | [], acc => (acc, none)
  | p :: rest, acc =>
    match a.open p with
    | none => (acc, some (.openErr p))
    | some bs =>
      let v := (d.qti bs).1
      qtisLoop d a rest (if v.xmlNameLocal = "questestinterop" then acc ++ [v] else acc)

/-- Models `IMSCC.QTIs`. -/
def QTIs (d : Decoders) (a : Archive) (m : Manifest) : List Questestinterop × Option Err :=
  qtisLoop d a (findResourcesByType m "imsqti_xmlv1p") []

/-- The loop of `IMSCC.LTIs`: decode and append unconditionally. -/
def ltisLoop (d : Decoders) (a : Archive) :
    List String → List CartridgeBasicltiLink → List CartridgeBasicltiLink × Option Err
  | [], acc => (acc, none)
  | p :: rest, acc =>
    match a.open p with
    | none => (acc, some (.openErr p))
    | some bs => ltisLoop d a rest (acc ++ [(d.lti bs).1])

/-- Models `IMSCC.LTIs`. -/
def LTIs (d : Decoders) (a : Archive) (m : Manifest) : List CartridgeBasicltiLink × Option Err :=
  ltisLoop d a (findResourcesByType m "imsbasiclti_xmlv1p") []

/-- Models `IMSCC.parseManifest`: locate the first entry whose name
contains `imsmanifest.xml` (path stays `""` when none), open it (opening
`""` fails, yielding the not-found error), and unmarshal — discarding the
unmarshal error, so malformed XML still returns success with whatever was
decoded (the zero manifest when nothing parsed). -/
def parseManifest (d : Decoders) (a : Archive) : Manifest × Option Err :=
  let path :=
    match a.entries.find? (fun e => strContains e.1 "imsmanifest.xml") with
    | none => ""
    | some e => e.1
  match a.open path with
  | none => (zeroManifest, some (.openErr path))
  | some bs => ((d.manifest bs).1, none)

/-- Models `Load` after the zip container itself opened: parse the
manifest, returning the cartridge with the parse error (if any). -/
def Load (d : Decoders) (a : Archive) : Manifest × Option Err :=
  parseManifest d a

/-! ### Shared sample objects for witnesses and counterexamples -/

/-- A decoder oracle on which every `Unmarshal` succeeds and fills in the
zero value of the target struct. -/
def trivialDecoders : Decoders :=
  ⟨fun _ => (⟨""⟩, true), fun _ => (⟨"", "", ""⟩, true), fun _ => (⟨""⟩, true),
   fun _ => (⟨""⟩, true), fun _ => (⟨""⟩, true), fun _ => (zeroManifest, true)⟩

/-- The empty zip archive. -/
def emptyArchive : Archive := ⟨[]⟩

/-- A one-resource cartridge manifest: a file-less `webcontent` resource. -/
def webcontentManifest : Manifest := ⟨zeroItem, [⟨"r1", "webcontent", "", []⟩]⟩

/-- A cartridge whose root organization item has one child referencing
`ref1`; the catalog holds one resource whose identifier contains `ref1`
and one that does not. -/
def treeManifest : Manifest :=
  ⟨.mk "root" "" [.mk "i1" "ref1" []],
   [⟨"xref1x", "webcontent", "", []⟩, ⟨"nope", "webcontent", "", []⟩]⟩

/-- The single `FullItem` that `Items treeManifest` produces. -/
def treeFullItem : FullItem :=
  .mk [⟨"xref1x", "webcontent", "", []⟩] (.mk "i1" "ref1" []) []

/-- A cartridge with one discussion-topic resource that has no direct
`href` and two listed files (the structured XML and a companion HTML). -/
def twoFileManifest : Manifest :=
  ⟨zeroItem, [⟨"r1", "imsdt_xmlv1p1", "", [⟨"a.xml"⟩, ⟨"b.html"⟩]⟩]⟩

/-- The archive backing `twoFileManifest`: `a.xml` holds `[1]`, `b.html` holds `[2]`. -/
def twoFileArchive : Archive := ⟨[("a.xml", [1]), ("b.html", [2])]⟩

/-- Decoders whose topic decoder reports root element `topic` for the
bytes of the structured XML (`[1]`) and `html` for anything else. -/
def markingDecoders : Decoders :=
  { trivialDecoders with topic := fun bs => (⟨if bs = [1] then "topic" else "html"⟩, true) }

/-- A cartridge with one resource carrying an unrecognized type tag and a
backing file present in the archive. -/
def mysteryManifest : Manifest := ⟨zeroItem, [⟨"r1", "mystery", "f.xml", []⟩]⟩

/-- The archive backing `mysteryManifest`. -/
def mysteryArchive : Archive := ⟨[("f.xml", [0])]⟩

/-- A cartridge with one discussion-topic resource whose backing file exists. -/
def failTopicManifest : Manifest := ⟨zeroItem, [⟨"r1", "imsdt_xmlv1p1", "t.xml", []⟩]⟩

/-- The archive backing `failTopicManifest`: `t.xml` holds bytes that do
not parse as a topic document. -/
def failTopicArchive : Archive := ⟨[("t.xml", [9])]⟩

/-- Decoders whose topic decoder always fails, leaving the zero value in
the target struct (modelling `xml.Unmarshal` on non-topic bytes). -/
def failingDecoders : Decoders :=
  { trivialDecoders with topic := fun _ => (⟨""⟩, false) }

/-- A two-resource cartridge with distinct identifiers and file-less
`webcontent` resources (so `Find` succeeds on both). -/
def pairManifest : Manifest :=
  ⟨zeroItem, [⟨"a", "webcontent", "", []⟩, ⟨"b", "webcontent", "", []⟩]⟩

/-- An archive whose manifest entry sits under a path prefix. -/
def nestedManifestArchive : Archive := ⟨[("course/imsmanifest.xml", [1])]⟩

/-- An archive with a manifest entry whose bytes do not parse. -/
def badManifestArchive : Archive := ⟨[("imsmanifest.xml", [7])]⟩

/-- Decoders whose manifest decoder always fails, leaving the zero value. -/
def badManifestDecoders : Decoders :=
  { trivialDecoders with manifest := fun _ => (zeroManifest, false) }

/-- A cartridge with one topic resource and one assignment resource; the
assignment resource lists the structured XML and a companion HTML file. -/
def listerManifest : Manifest :=
  ⟨zeroItem,
   [⟨"t1", "imsdt_xmlv1p1", "", [⟨"t.xml"⟩]⟩,
    ⟨"a1", "assignment_xmlv1p1", "", [⟨"a.xml"⟩, ⟨"a_meta.html"⟩]⟩]⟩

/-- The archive backing `listerManifest`. -/
def listerArchive : Archive := ⟨[("t.xml", [1]), ("a.xml", [2]), ("a_meta.html", [3])]⟩

/-- The entry contents of `listerArchive` as a function of the path. -/
def listerContents : String → Bytes :=
  fun p => if p = "t.xml" then [1] else if p = "a.xml" then [2] else [3]

/-- Decoders for `listerArchive`: the assignment decoder reports root
`assignment` only for the structured XML bytes (`[2]`). -/
def listerDecoders : Decoders :=
  { trivialDecoders with
      topic := fun _ => (⟨"topic"⟩, true),
      assignment := fun bs => (⟨if bs = [2] then "assignment" else "html"⟩, true) }

/-- A cartridge whose root organization item has a single immediate child
that itself references `x` and has no children of its own. -/
def soloChildManifest : Manifest := ⟨.mk "root" "" [.mk "c1" "x" []], []⟩

/-! ### C1: Find and the not-found error -/

/-- Once a resource matched the requested identifier, `Find` returns from
inside the loop and can only produce `nil`, an open error, or the
`no matching type found` error — never the `could not find resource` error. -/
theorem findOne_ne_resourceNotFound (d : Decoders) (a : Archive) (r : Resource) (s : String) :
    (findOne d a r).2 ≠ some (Err.resourceNotFound s) := by
  unfold findOne findSwitch
  repeat' split
  all_goals simp

/-- The loop of `Find`: a present identifier never yields the
`could not find resource` error; an absent identifier always does. -/
theorem findAux_notFound_spec (d : Decoders) (a : Archive) (id : String) :
    ∀ rs : List Resource,
      ((∃ r ∈ rs, r.identifier = id) →
        ∀ s, (findAux d a id rs).2 ≠ some (Err.resourceNotFound s))
      ∧ ((∀ r ∈ rs, r.identifier ≠ id) →
        (findAux d a id rs).2 = some (Err.resourceNotFound id)) := by
  intro rs
  induction rs with
  | nil =>
    refine ⟨fun h => absurd h (by simp), fun _ => rfl⟩
  | cons r rest ih =>
    constructor
    · rintro ⟨r', hr', hid⟩ s
      by_cases h : r.identifier = id
      · simpa [findAux, h] using findOne_ne_resourceNotFound d a r s
      · rcases List.mem_cons.mp hr' with h1 | h1
        · exact absurd (h1 ▸ hid) h
        · simpa [findAux, h] using ih.1 ⟨r', h1, hid⟩ s
    · intro habs
      have h : r.identifier ≠ id := habs r (List.mem_cons_self r rest)
      have := ih.2 (fun r' hr' => habs r' (List.mem_cons_of_mem r hr'))
      simpa [findAux, h] using this

/-- C1: for every loaded cartridge, `Find(id)` with an identifier present
in the resource catalog never returns the not-found error, and `Find(id)`
with an identifier absent from the catalog always returns it. -/
theorem Find_notFound_iff_absent (d : Decoders) (a : Archive) (m : Manifest) (id : String) :
    ((∃ r ∈ m.resources, r.identifier = id) →
      ∀ s, (Find d a m id).2 ≠ some (Err.resourceNotFound s))
    ∧ ((∀ r ∈ m.resources, r.identifier ≠ id) →
      (Find d a m id).2 = some (Err.resourceNotFound id)) :=
  findAux_notFound_spec d a id m.resources

/-- Witness for C1 on a concrete cartridge: `"r1"` is present and does not
yield the not-found error, `"zz"` is absent and does. -/
theorem Find_notFound_iff_absent_witness :
    ((∃ r ∈ webcontentManifest.resources, r.identifier = "r1")
      ∧ (Find trivialDecoders emptyArchive webcontentManifest "r1").2 ≠
          some (Err.resourceNotFound "r1"))
    ∧ ((∀ r ∈ webcontentManifest.resources, r.identifier ≠ "zz")
      ∧ (Find trivialDecoders emptyArchive webcontentManifest "zz").2 =
          some (Err.resourceNotFound "zz")) :=
  ⟨⟨by decide,
    (Find_notFound_iff_absent trivialDecoders emptyArchive webcontentManifest "r1").1
      (by decide) "r1"⟩,
   ⟨by decide,
    (Find_notFound_iff_absent trivialDecoders emptyArchive webcontentManifest "zz").2
      (by decide)⟩⟩

/-! ### C2: the tree invariant of Items -/

mutual

/-- Every node of the tree `traverseItems` builds carries exactly the
catalog resources whose identifier contains the node's `identifierref`
(in document order), and the empty list when the `identifierref` is empty. -/
theorem traverse_allNodes_spec (rs : List Resource) :
    ∀ (it : Item), ∀ f ∈ FullItem.allNodes (traverseItems rs it),
      f.resources =
        (if f.item.identifierref ≠ "" then
          rs.filter (fun r => strContains r.identifier f.item.identifierref)
        else [])
  | .mk i ref cs => by
    intro f hf
    have h : FullItem.allNodes (traverseItems rs (.mk i ref cs)) =
        FullItem.mk
          (if ref ≠ "" then rs.filter (fun r => strContains r.identifier ref) else [])
          (.mk i ref cs) (traverseItemsList rs cs)
          :: FullItem.allNodesList (traverseItemsList rs cs) := rfl
    rw [h] at hf
    rcases List.mem_cons.mp hf with h1 | h1
    · subst h1; rfl
    · exact traverseList_allNodes_spec rs cs f h1

/-- The list version of `traverse_allNodes_spec`, over the children loop. -/
theorem traverseList_allNodes_spec (rs : List Resource) :
    ∀ (its : List Item), ∀ f ∈ FullItem.allNodesList (traverseItemsList rs its),
      f.resources =
        (if f.item.identifierref ≠ "" then
          rs.filter (fun r => strContains r.identifier f.item.identifierref)
        else [])
  | [] => by
    intro f hf
    simp [traverseItemsList, FullItem.allNodesList] at hf
  | c :: cs => by
    intro f hf
    have h : FullItem.allNodesList (traverseItemsList rs (c :: cs)) =
        FullItem.allNodes (traverseItems rs c)
          ++ FullItem.allNodesList (traverseItemsList rs cs) := rfl
    rw [h] at hf
    rcases List.mem_append.mp hf with h1 | h1
    · exact traverse_allNodes_spec rs c f h1
    · exact traverseList_allNodes_spec rs cs f h1

end

/-- C2: for every `FullItem` produced by `Items()` (at any depth), the
attached resource sequence is exactly the catalog resources, in document
order and without deduplication, whose identifier contains the item's
`identifier_ref`, and it is empty when the `identifier_ref` is empty. -/
theorem Items_tree_invariant (m : Manifest) :
    ∀ f ∈ FullItem.allNodesList (Items m),
      f.resources =
        (if f.item.identifierref ≠ "" then
          m.resources.filter (fun r => strContains r.identifier f.item.identifierref)
        else []) :=
  fun f hf => traverseList_allNodes_spec m.resources m.rootItem.item f hf

/-- Witness for C2 on a concrete two-resource cartridge: the single
produced node holds exactly the resource whose identifier contains the
item's `identifier_ref`. -/
theorem Items_tree_invariant_witness :
    treeFullItem ∈ FullItem.allNodesList (Items treeManifest)
    ∧ treeFullItem.resources =
        (if treeFullItem.item.identifierref ≠ "" then
          treeManifest.resources.filter
            (fun r => strContains r.identifier treeFullItem.item.identifierref)
        else []) := by
  have hmem : treeFullItem ∈ FullItem.allNodesList (Items treeManifest) :=
    List.Mem.head _
  exact ⟨hmem, Items_tree_invariant treeManifest treeFullItem hmem⟩

/-! ### C3: backing-path selection in Find -/

/-- C3 failing input: for a resource with an empty `href` and two listed
files, `Find` selects the **last** file's path (`b.html`), not the first
(`a.xml`): the decoded value comes from the bytes of `b.html`. -/
theorem Find_uses_last_file :
    resourcePath ⟨"r1", "imsdt_xmlv1p1", "", [⟨"a.xml"⟩, ⟨"b.html"⟩]⟩ = "b.html"
    ∧ Find markingDecoders twoFileArchive twoFileManifest "r1" = (.topic ⟨"html"⟩, none)
    ∧ markingDecoders.topic [1] = (⟨"topic"⟩, true) :=
  ⟨rfl, rfl, rfl⟩

/-! ### C4: Find on untyped / unrecognized resource types -/

/-- Lemma: `Find` reaches the body for the first catalog resource whose
identifier equals the requested one. -/
theorem findAux_firstMatch (d : Decoders) (a : Archive) (id : String) :
    ∀ (pre : List Resource) (r : Resource) (post : List Resource),
      (∀ r' ∈ pre, r'.identifier ≠ id) → r.identifier = id →
      findAux d a id (pre ++ r :: post) = findOne d a r := by
  intro pre
  induction pre with
  | nil => intro r post _ hr; simp [findAux, hr]
  | cons p pre ih =>
    intro r post hpre hr
    have hp : p.identifier ≠ id := hpre p (List.mem_cons_self _ _)
    simp only [List.cons_append, findAux, if_neg hp]
    exact ih r post (fun r' h => hpre r' (List.mem_cons_of_mem _ h)) hr

/-- C4 counterexample: on a resource with an unrecognized type tag and a
backing file, `Find` returns the raw resource **with** a non-nil
`no matching type found` error, so an unrecognized type tag does abort a
caller that propagates errors. -/
theorem Find_unknown_type_errors :
    Find trivialDecoders mysteryArchive mysteryManifest "r1"
      = (.raw ⟨"r1", "mystery", "f.xml", []⟩, some (.noMatchingType "mystery"))
    ∧ (Find trivialDecoders mysteryArchive mysteryManifest "r1").2 ≠ none :=
  ⟨rfl, by decide⟩

/-- C4 amended: for the first catalog resource matching the identifier,
`Find` returns the raw resource with no error when there is no backing
path, or when the type is `webcontent` / associated content and the
backing file opens; for an unrecognized type with a backing file it
returns the raw resource together with the `no matching type found` error. -/
theorem Find_untyped_families (d : Decoders) (a : Archive) (m : Manifest) (id : String)
    (pre : List Resource) (r : Resource) (post : List Resource)
    (hsplit : m.resources = pre ++ r :: post)
    (hpre : ∀ r' ∈ pre, r'.identifier ≠ id) (hr : r.identifier = id) :
    (resourcePath r = "" → Find d a m id = (.raw r, none))
    ∧ (∀ bs, a.open (resourcePath r) = some bs →
        ((r.rtype = "webcontent" ∨ r.rtype ∈ associatedContentTypes) →
          Find d a m id = (.raw r, none))
        ∧ ((r.rtype ∉ topicTypes ∧ r.rtype ≠ "webcontent" ∧ r.rtype ∉ weblinkTypes
            ∧ r.rtype ∉ assignmentTypes ∧ r.rtype ∉ qtiTypes ∧ r.rtype ∉ ltiTypes
            ∧ r.rtype ∉ associatedContentTypes) →
          Find d a m id = (.raw r, some (.noMatchingType r.rtype)))) := by
  have hF : Find d a m id = findOne d a r := by
    rw [Find, hsplit]
    exact findAux_firstMatch d a id pre r post hpre hr
  constructor
  · intro hpath
    rw [hF]
    simp [findOne, hpath]
  · intro bs hbs
    have hne : resourcePath r ≠ "" := by
      intro h
      rw [h] at hbs
      simp [Archive.open] at hbs
    constructor
    · rintro (h | h)
      · rw [hF]
        simp [findOne, hne, hbs, findSwitch, h, topicTypes]
      · rw [hF]
        simp only [associatedContentTypes, List.mem_cons, List.mem_singleton,
          List.not_mem_nil, or_false] at h
        rcases h with h | h | h | h <;>
          simp [findOne, hne, hbs, findSwitch, h, topicTypes, weblinkTypes,
            assignmentTypes, qtiTypes, ltiTypes, associatedContentTypes]
    · rintro ⟨h1, h2, h3, h4, h5, h6, h7⟩
      rw [hF]
      simp [findOne, hne, hbs, findSwitch, h1, h2, h3, h4, h5, h6, h7]

/-- Witness for the C4 amended claim at the concrete unknown-typed
cartridge: the raw resource comes back with the non-nil error. -/
theorem Find_untyped_families_witness :
    mysteryManifest.resources = [] ++ (⟨"r1", "mystery", "f.xml", []⟩ : Resource) :: []
    ∧ mysteryArchive.open (resourcePath ⟨"r1", "mystery", "f.xml", []⟩) = some [0]
    ∧ Find trivialDecoders mysteryArchive mysteryManifest "r1"
        = (.raw ⟨"r1", "mystery", "f.xml", []⟩, some (.noMatchingType "mystery")) := by
  refine ⟨rfl, rfl, ?_⟩
  exact ((Find_untyped_families trivialDecoders mysteryArchive mysteryManifest "r1"
    [] ⟨"r1", "mystery", "f.xml", []⟩ [] rfl (by decide) rfl).2 [0] rfl).2 (by decide)

/-! ### C5: decode failures inside Find -/

/-- C5 failing input: the backing bytes of the topic resource do not
parse (`(failingDecoders.topic [9]).2 = false`), yet `Find` returns the
zero-value topic with a **nil** error — the decode failure is swallowed by
`if err != nil { return t, nil }`. -/
theorem Find_swallows_decode_error :
    (failingDecoders.topic [9]).2 = false
    ∧ Find failingDecoders failTopicArchive failTopicManifest "r1" = (.topic ⟨""⟩, none) :=
  ⟨rfl, rfl⟩

/-! ### C6: FindFile on zero-file resources -/

/-- C6 failing input: `FindFile` on a located resource with an empty file
list evaluates `r.File[0]` and panics (index out of range) instead of
returning a not-found error. -/
theorem FindFile_panics_on_empty_file_list :
    FindFile emptyArchive webcontentManifest "r1" = .panicked := rfl

/-! ### C7: Resources produces one entry per catalog resource -/

/-- The loop of `Resources`, when `Find` succeeds on every remaining
resource, appends exactly one `FullResource` per resource in order. -/
theorem resourcesLoop_ok (d : Decoders) (a : Archive) (m : Manifest) :
    ∀ (rs : List Resource) (acc : List FullResource),
      (∀ r ∈ rs, (Find d a m r.identifier).2 = none) →
      resourcesLoop d a m rs acc =
        (acc ++ rs.map (fun r => ⟨(Find d a m r.identifier).1, FindItem m r.identifier⟩),
         none) := by
  intro rs
  induction rs with
  | nil => intro acc _; simp [resourcesLoop]
  | cons r rest ih =>
    intro acc h
    have hr := h r (List.mem_cons_self _ _)
    rcases hF : Find d a m r.identifier with ⟨found, err⟩
    have herr : err = none := by rw [hF] at hr; exact hr
    subst herr
    rw [resourcesLoop, hF]
    show resourcesLoop d a m rest (acc ++ [⟨found, FindItem m r.identifier⟩]) = _
    rw [ih _ (fun q hq => h q (List.mem_cons_of_mem _ hq))]
    simp [hF]

/-- C7 counterexample: a catalog with pairwise-distinct identifiers on
which `Resources` returns zero entries for one catalog resource, because
`Find` errors on the unrecognized type and the loop aborts. -/
theorem Resources_aborts_on_find_error :
    List.Pairwise (fun r s => r.identifier ≠ s.identifier) mysteryManifest.resources
    ∧ (Resources trivialDecoders mysteryArchive mysteryManifest).1.length = 0
    ∧ mysteryManifest.resources.length = 1 :=
  ⟨by decide, rfl, rfl⟩

/-- C7 amended: when the catalog identifiers are pairwise distinct and
`Find` succeeds on every catalog resource, `Resources` returns exactly one
`FullResource` per catalog resource, in document order, so its length is
the catalog's length; each entry carries a single (possibly zero-value)
paired `Item`. -/
theorem Resources_one_entry_per_resource (d : Decoders) (a : Archive) (m : Manifest)
    (_hdistinct : List.Pairwise (fun r s => r.identifier ≠ s.identifier) m.resources)
    (hok : ∀ r ∈ m.resources, (Find d a m r.identifier).2 = none) :
    (Resources d a m).1
      = m.resources.map (fun r => ⟨(Find d a m r.identifier).1, FindItem m r.identifier⟩)
    ∧ (Resources d a m).1.length = m.resources.length
    ∧ (Resources d a m).2 = none := by
  have h := resourcesLoop_ok d a m m.resources [] hok
  rw [Resources, h]
  simp

/-- Witness for the C7 amended claim on a concrete two-resource cartridge. -/
theorem Resources_one_entry_per_resource_witness :
    List.Pairwise (fun r s => r.identifier ≠ s.identifier) pairManifest.resources
    ∧ (∀ r ∈ pairManifest.resources,
        (Find trivialDecoders emptyArchive pairManifest r.identifier).2 = none)
    ∧ (Resources trivialDecoders emptyArchive pairManifest).1.length
        = pairManifest.resources.length := by
  refine ⟨by decide, by decide, ?_⟩
  exact (Resources_one_entry_per_resource trivialDecoders emptyArchive pairManifest
    (by decide) (by decide)).2.1

/-! ### C8: locating and parsing the manifest in Load -/

/-- C8 counterexample: the manifest entry's bytes do not parse
(`(badManifestDecoders.manifest [7]).2 = false`), yet `Load` succeeds with
the zero-value manifest — the unmarshal error is discarded. -/
theorem Load_ignores_malformed_manifest :
    (badManifestDecoders.manifest [7]).2 = false
    ∧ Load badManifestDecoders badManifestArchive = (zeroManifest, none) :=
  ⟨rfl, rfl⟩

/-- C8 amended: `Load` fails with the not-found (open) error when no
archive entry name contains `imsmanifest.xml`; when some entry matches,
`Load` never reports an error, whatever the entry's bytes are — malformed
XML is decoded best-effort and its error discarded. -/
theorem Load_manifest_location (d : Decoders) (a : Archive) :
    ((∀ e ∈ a.entries, strContains e.1 "imsmanifest.xml" = false) →
      Load d a = (zeroManifest, some (.openErr "")))
    ∧ (∀ e, a.entries.find? (fun x => strContains x.1 "imsmanifest.xml") = some e →
        (Load d a).2 = none) := by
  constructor
  · intro h
    have hfind : a.entries.find? (fun x => strContains x.1 "imsmanifest.xml") = none :=
      List.find?_eq_none.mpr (fun x hx => by simp [h x hx])
    simp [Load, parseManifest, hfind, Archive.open]
  · intro e he
    have hmem : e ∈ a.entries := List.mem_of_find?_eq_some he
    have hpred := List.find?_some he
    have hne : e.1 ≠ "" := by
      intro h
      rw [h] at hpred
      exact absurd hpred (by decide)
    rcases hfind2 : a.entries.find? (fun x => x.1 = e.1) with _ | y
    · exfalso
      have := List.find?_eq_none.mp hfind2 e hmem
      simp at this
    · have hopen : a.open e.1 = some y.2 := by
        simp [Archive.open, hne, hfind2]
      simp [Load, parseManifest, he, hopen]

/-- Witness for the C8 amended claim: a nested manifest entry loads with
no error; an archive without any manifest entry yields the open error. -/
theorem Load_manifest_location_witness :
    nestedManifestArchive.entries.find? (fun x => strContains x.1 "imsmanifest.xml")
      = some ("course/imsmanifest.xml", [1])
    ∧ (Load trivialDecoders nestedManifestArchive).2 = none
    ∧ (∀ e ∈ emptyArchive.entries, strContains e.1 "imsmanifest.xml" = false)
    ∧ Load trivialDecoders emptyArchive = (zeroManifest, some (.openErr "")) :=
  ⟨by decide,
   (Load_manifest_location trivialDecoders nestedManifestArchive).2
     ("course/imsmanifest.xml", [1]) (by decide),
   by decide,
   (Load_manifest_location trivialDecoders emptyArchive).1 (by decide)⟩

/-! ### C9: the per-family listers and the root-element check -/

/-- When every path opens, the Topics loop appends every decoded document
in order, with no root-element check. -/
theorem topicsLoop_ok (d : Decoders) (a : Archive) (c : String → Bytes) :
    ∀ (ps : List String) (acc : List Topic),
      (∀ p ∈ ps, a.open p = some (c p)) →
      topicsLoop d a ps acc = (acc ++ ps.map (fun p => (d.topic (c p)).1), none) := by
  intro ps
  induction ps with
  | nil => intro acc _; simp [topicsLoop]
  | cons p rest ih =>
    intro acc h
    rw [topicsLoop, h p (List.mem_cons_self _ _)]
    show topicsLoop d a rest _ = _
    rw [ih _ (fun q hq => h q (List.mem_cons_of_mem _ hq))]
    simp

/-- When every path opens, the Weblinks loop appends every decoded
document in order, with no root-element check. -/
theorem weblinksLoop_ok (d : Decoders) (a : Archive) (c : String → Bytes) :
    ∀ (ps : List String) (acc : List WebLink),
      (∀ p ∈ ps, a.open p = some (c p)) →
      weblinksLoop d a ps acc = (acc ++ ps.map (fun p => (d.weblink (c p)).1), none) := by
  intro ps
  induction ps with
  | nil => intro acc _; simp [weblinksLoop]
  | cons p rest ih =>
    intro acc h
    rw [weblinksLoop, h p (List.mem_cons_self _ _)]
    show weblinksLoop d a rest _ = _
    rw [ih _ (fun q hq => h q (List.mem_cons_of_mem _ hq))]
    simp

/-- When every path opens, the LTIs loop appends every decoded document in
order, with no root-element check. -/
theorem ltisLoop_ok (d : Decoders) (a : Archive) (c : String → Bytes) :
    ∀ (ps : List String) (acc : List CartridgeBasicltiLink),
      (∀ p ∈ ps, a.open p = some (c p)) →
      ltisLoop d a ps acc = (acc ++ ps.map (fun p => (d.lti (c p)).1), none) := by
  intro ps
  induction ps with
  | nil => intro acc _; simp [ltisLoop]
  | cons p rest ih =>
    intro acc h
    rw [ltisLoop, h p (List.mem_cons_self _ _)]
    show ltisLoop d a rest _ = _
    rw [ih _ (fun q hq => h q (List.mem_cons_of_mem _ hq))]
    simp

/-- When every path opens, the Assignments loop keeps exactly the decoded
documents whose root element is `assignment`. -/
theorem assignmentsLoop_ok (d : Decoders) (a : Archive) (c : String → Bytes) :
    ∀ (ps : List String) (acc : List Assignment),
      (∀ p ∈ ps, a.open p = some (c p)) →
      assignmentsLoop d a ps acc =
        (acc ++ (ps.map (fun p => (d.assignment (c p)).1)).filter
          (fun v => v.xmlNameLocal = "assignment"), none) := by
  intro ps
  induction ps with
  | nil => intro acc _; simp [assignmentsLoop]
  | cons p rest ih =>
    intro acc h
    rw [assignmentsLoop, h p (List.mem_cons_self _ _)]
    show assignmentsLoop d a rest _ = _
    rw [ih _ (fun q hq => h q (List.mem_cons_of_mem _ hq))]
    by_cases hv : (d.assignment (c p)).1.xmlNameLocal = "assignment" <;>
      simp [hv, List.filter_cons]

/-- When every path opens, the QTIs loop keeps exactly the decoded
documents whose root element is `questestinterop`. -/
theorem qtisLoop_ok (d : Decoders) (a : Archive) (c : String → Bytes) :
    ∀ (ps : List String) (acc : List Questestinterop),
      (∀ p ∈ ps, a.open p = some (c p)) →
      qtisLoop d a ps acc =
        (acc ++ (ps.map (fun p => (d.qti (c p)).1)).filter
          (fun v => v.xmlNameLocal = "questestinterop"), none) := by
  intro ps
  induction ps with
  | nil => intro acc _; simp [qtisLoop]
  | cons p rest ih =>
    intro acc h
    rw [qtisLoop, h p (List.mem_cons_self _ _)]
    show qtisLoop d a rest _ = _
    rw [ih _ (fun q hq => h q (List.mem_cons_of_mem _ hq))]
    by_cases hv : (d.qti (c p)).1.xmlNameLocal = "questestinterop" <;>
      simp [hv, List.filter_cons]

/-- C9 counterexample: `Topics` includes the decoded companion HTML file
(root element `html`), so not every per-family lister performs the
root-element check. -/
theorem Topics_no_root_check :
    Topics markingDecoders twoFileArchive twoFileManifest = ([⟨"topic"⟩, ⟨"html"⟩], none)
    ∧ ¬ (∀ t ∈ (Topics markingDecoders twoFileArchive twoFileManifest).1,
          t.xmlNameLocal = "topic") :=
  ⟨rfl, by decide⟩

/-- C9 amended: when every matched file opens, `Assignments` and `QTIs`
keep exactly the decoded documents whose root element matches the family
root (`assignment`, `questestinterop`), while `Topics`, `Weblinks` and
`LTIs` include every decoded document of matching-typed resource files
without any root-element check. -/
theorem listers_root_element_policy (d : Decoders) (a : Archive) (m : Manifest)
    (c : String → Bytes)
    (ht : ∀ p ∈ findResourcesByType m "imsdt_xmlv1p", a.open p = some (c p))
    (hw : ∀ p ∈ findResourcesByType m "imswl_xmlv1p", a.open p = some (c p))
    (ha : ∀ p ∈ findResourcesByType m "assignment_xmlv1p", a.open p = some (c p))
    (hq : ∀ p ∈ findResourcesByType m "imsqti_xmlv1p", a.open p = some (c p))
    (hl : ∀ p ∈ findResourcesByType m "imsbasiclti_xmlv1p", a.open p = some (c p)) :
    (Topics d a m).1
      = (findResourcesByType m "imsdt_xmlv1p").map (fun p => (d.topic (c p)).1)
    ∧ (Weblinks d a m).1
      = (findResourcesByType m "imswl_xmlv1p").map (fun p => (d.weblink (c p)).1)
    ∧ (LTIs d a m).1
      = (findResourcesByType m "imsbasiclti_xmlv1p").map (fun p => (d.lti (c p)).1)
    ∧ (Assignments d a m).1
      = ((findResourcesByType m "assignment_xmlv1p").map
          (fun p => (d.assignment (c p)).1)).filter (fun v => v.xmlNameLocal = "assignment")
    ∧ (QTIs d a m).1
      = ((findResourcesByType m "imsqti_xmlv1p").map
          (fun p => (d.qti (c p)).1)).filter (fun v => v.xmlNameLocal = "questestinterop") := by
  refine ⟨?_, ?_, ?_, ?_, ?_⟩
  · rw [Topics, topicsLoop_ok d a c _ [] ht]; simp
  · rw [Weblinks, weblinksLoop_ok d a c _ [] hw]; simp
  · rw [LTIs, ltisLoop_ok d a c _ [] hl]; simp
  · rw [Assignments, assignmentsLoop_ok d a c _ [] ha]; simp
  · rw [QTIs, qtisLoop_ok d a c _ [] hq]; simp

/-- Witness for the C9 amended claim on a concrete cartridge holding a
topic resource and an assignment resource with a companion HTML file. -/
theorem listers_root_element_policy_witness :
    (∀ p ∈ findResourcesByType listerManifest "imsdt_xmlv1p",
      listerArchive.open p = some (listerContents p))
    ∧ (∀ p ∈ findResourcesByType listerManifest "assignment_xmlv1p",
      listerArchive.open p = some (listerContents p))
    ∧ (Assignments listerDecoders listerArchive listerManifest).1
        = ((findResourcesByType listerManifest "assignment_xmlv1p").map
            (fun p => (listerDecoders.assignment (listerContents p)).1)).filter
          (fun v => v.xmlNameLocal = "assignment") := by
  refine ⟨by decide, by decide, ?_⟩
  exact (listers_root_element_policy listerDecoders listerArchive listerManifest
    listerContents (by decide) (by decide) (by decide) (by decide) (by decide)).2.2.2.1

/-! ### C10: how Resources pairs an Item with a resource -/

/-- Invariant of the Go helper `findItem`: its result is the running value
it was started with, the zero item, or a node of the searched forest whose
`Identifierref` equals the searched id (the comparison is exact string
equality). -/
theorem findItemGo_spec (id : String) :
    ∀ (items : List Item) (cur : Item),
      findItemGo id items cur = cur ∨ findItemGo id items cur = zeroItem
      ∨ (findItemGo id items cur ∈ Item.allNodesList items
          ∧ (findItemGo id items cur).identifierref = id)
  | [], _cur => Or.inl rfl
  | .mk ident ref children :: rest, cur => by
    by_cases h : ref = id
    · have hred : findItemGo id (.mk ident ref children :: rest) cur
          = .mk ident ref children := by
        simp [findItemGo, h]
      refine Or.inr (Or.inr ⟨?_, ?_⟩)
      · rw [hred]
        show _ ∈ Item.allNodes (.mk ident ref children) ++ Item.allNodesList rest
        exact List.mem_append_left _ (List.Mem.head _)
      · rw [hred]
        exact h
    · by_cases hlen : 0 < children.length
      · have hred : findItemGo id (.mk ident ref children :: rest) cur
            = findItemGo id rest (findItemGo id children zeroItem) := by
          simp [findItemGo, h, hlen]
        rw [hred]
        rcases findItemGo_spec id rest (findItemGo id children zeroItem) with
          h1 | h1 | ⟨hm, hi⟩
        · rw [h1]
          rcases findItemGo_spec id children zeroItem with h2 | h2 | ⟨hm2, hi2⟩
          · exact Or.inr (Or.inl h2)
          · exact Or.inr (Or.inl h2)
          · refine Or.inr (Or.inr ⟨?_, hi2⟩)
            show _ ∈ Item.allNodes (.mk ident ref children) ++ Item.allNodesList rest
            exact List.mem_append_left _ (List.mem_cons_of_mem _ hm2)
        · exact Or.inr (Or.inl h1)
        · refine Or.inr (Or.inr ⟨?_, hi⟩)
          show _ ∈ Item.allNodes (.mk ident ref children) ++ Item.allNodesList rest
          exact List.mem_append_right _ hm
      · have hred : findItemGo id (.mk ident ref children :: rest) cur
            = findItemGo id rest cur := by
          simp [findItemGo, h, hlen]
        rw [hred]
        rcases findItemGo_spec id rest cur with h1 | h1 | ⟨hm, hi⟩
        · exact Or.inl h1
        · exact Or.inr (Or.inl h1)
        · refine Or.inr (Or.inr ⟨?_, hi⟩)
          show _ ∈ Item.allNodes (.mk ident ref children) ++ Item.allNodesList rest
          exact List.mem_append_right _ hm

/-- Invariant of the loop of `FindItem`: the result is the running value,
the zero item, or a node strictly below some immediate child of the root
organization item whose `Identifierref` equals the searched id — the
immediate children themselves are never compared. -/
theorem findItemTop_spec (id : String) :
    ∀ (children : List Item) (cur : Item),
      findItemTop id children cur = cur ∨ findItemTop id children cur = zeroItem
      ∨ ((findItemTop id children cur).identifierref = id
          ∧ ∃ i ∈ children, findItemTop id children cur ∈ Item.allNodesList i.item) := by
  intro children
  induction children with
  | nil => intro cur; exact Or.inl rfl
  | cons i rest ih =>
    intro cur
    by_cases h : (findItemGo id i.item zeroItem).identifierref = id
    · have hred : findItemTop id (i :: rest) cur = findItemGo id i.item zeroItem := by
        simp [findItemTop, h]
      rw [hred]
      rcases findItemGo_spec id i.item zeroItem with h1 | h1 | ⟨hm, _⟩
      · exact Or.inr (Or.inl h1)
      · exact Or.inr (Or.inl h1)
      · exact Or.inr (Or.inr ⟨h, ⟨i, List.mem_cons_self _ _, hm⟩⟩)
    · have hred : findItemTop id (i :: rest) cur
          = findItemTop id rest (findItemGo id i.item zeroItem) := by
        simp [findItemTop, h]
      rw [hred]
      rcases ih (findItemGo id i.item zeroItem) with h1 | h1 | ⟨hi, j, hj, hmem⟩
      · rw [h1]
        rcases findItemGo_spec id i.item zeroItem with h2 | h2 | ⟨_, hi2⟩
        · exact Or.inr (Or.inl h2)
        · exact Or.inr (Or.inl h2)
        · exact absurd hi2 h
      · exact Or.inr (Or.inl h1)
      · exact Or.inr (Or.inr ⟨hi, j, List.mem_cons_of_mem _ hj, hmem⟩)

/-- Every entry the Resources loop emits is paired with `FindItem` of some
catalog resource identifier. -/
theorem resourcesLoop_mem (d : Decoders) (a : Archive) (m : Manifest) :
    ∀ (rs : List Resource) (acc : List FullResource) (fr : FullResource),
      fr ∈ (resourcesLoop d a m rs acc).1 →
      fr ∈ acc ∨ ∃ r ∈ rs, fr.item = FindItem m r.identifier := by
  intro rs
  induction rs with
  | nil =>
    intro acc fr h
    exact Or.inl (by simpa [resourcesLoop] using h)
  | cons r rest ih =>
    intro acc fr h
    rcases hF : Find d a m r.identifier with ⟨found, err⟩
    cases err with
    | some e =>
      rw [resourcesLoop, hF] at h
      exact Or.inl h
    | none =>
      rw [resourcesLoop, hF] at h
      have h' : fr ∈ (resourcesLoop d a m rest
          (acc ++ [⟨found, FindItem m r.identifier⟩])).1 := h
      rcases ih _ fr h' with h1 | ⟨r', hr', he⟩
      · rcases List.mem_append.mp h1 with h2 | h2
        · exact Or.inl h2
        · refine Or.inr ⟨r, List.mem_cons_self _ _, ?_⟩
          rw [List.mem_singleton.mp h2]
      · exact Or.inr ⟨r', List.mem_cons_of_mem _ hr', he⟩

/-- C10: the Item that `Resources` pairs with a resource comes from
`FindItem`; `FindItem` returns either the zero-value Item or an item whose
`identifier_ref` is **exactly equal** to the resource identifier and that
lies strictly below an immediate child of the root organization item; in
particular, when no item strictly below the immediate children matches,
the pairing is the zero-value Item even if an immediate child itself
references the identifier. -/
theorem FindItem_exact_match_below_top (d : Decoders) (a : Archive) (m : Manifest)
    (id : String) :
    (∀ fr ∈ (Resources d a m).1, ∃ r ∈ m.resources, fr.item = FindItem m r.identifier)
    ∧ (FindItem m id = zeroItem
        ∨ ((FindItem m id).identifierref = id
            ∧ ∃ i ∈ m.rootItem.item, FindItem m id ∈ Item.allNodesList i.item))
    ∧ ((∀ i ∈ m.rootItem.item, ∀ j ∈ Item.allNodesList i.item, j.identifierref ≠ id) →
        FindItem m id = zeroItem) := by
  have hpart2 : FindItem m id = zeroItem
      ∨ ((FindItem m id).identifierref = id
          ∧ ∃ i ∈ m.rootItem.item, FindItem m id ∈ Item.allNodesList i.item) := by
    rw [FindItem]
    rcases findItemTop_spec id m.rootItem.item zeroItem with h | h | h
    · exact Or.inl h
    · exact Or.inl h
    · exact Or.inr h
  refine ⟨?_, hpart2, ?_⟩
  · intro fr hfr
    rcases resourcesLoop_mem d a m m.resources [] fr hfr with h | h
    · simp at h
    · exact h
  · intro hnone
    rcases hpart2 with h | ⟨hid, i, hi, hmem⟩
    · exact h
    · exact absurd hid (hnone i hi _ hmem)

/-- Witness for C10: a resource referenced solely by an immediate child of
the root organization item is paired with the zero-value Item. -/
theorem FindItem_exact_match_below_top_witness :
    (∀ i ∈ soloChildManifest.rootItem.item,
      ∀ j ∈ Item.allNodesList i.item, j.identifierref ≠ "x")
    ∧ FindItem soloChildManifest "x" = zeroItem := by
  refine ⟨by decide, ?_⟩
  exact (FindItem_exact_match_below_top trivialDecoders emptyArchive
    soloChildManifest "x").2.2 (by decide)

end CC
